import Mathlib

/-!
Shallow embedding of `LSBSteg.py` (LSB image steganography).

The program hides a byte payload in the low `num_lsb` bits of the RGB
channels of an image, preceded by a length header, and recovers it.
Machine integers are modelled as `Nat`; the module-level bit buffer is a
pair of an unbounded non-negative `value` and an `Int` `length` (the
source uses a Python int that is set to the sentinel `-1` on exhaustion
of the byte source).  Pixel access that PIL would reject with an
`IndexError` (coordinates outside the image) is modelled as `none`.
-/

namespace LSBSteg

/-- An image: width, height, and a row-major list of RGB pixels
(each channel a byte).  Mirrors the PIL image used by the source. -/
structure Image where
  width : Nat
  height : Nat
  data : List (Nat × Nat × Nat)
deriving DecidableEq, Repr

/-- Source `image.getpixel((x, y))`: PIL raises `IndexError` outside the
image, modelled as `none`. -/
def Image.getpixel (img : Image) (x y : Nat) : Option (Nat × Nat × Nat) :=
  if x < img.width ∧ y < img.height then img.data.get? (y * img.width + x) else none

/-- Source `image.putpixel((x, y), rgb)`. -/
def Image.putpixel (img : Image) (x y : Nat) (p : Nat × Nat × Nat) : Image :=
  ⟨img.width, img.height, img.data.set (y * img.width + x) p⟩

/-- The module-level bit buffer: `buffer` (a non-negative big int) and
`buffer_length` (a Python int, `-1` marking exhaustion of the byte
source). -/
structure Buf where
  value : Nat
  length : Int
deriving DecidableEq, Repr

/-- Source `reset_buffer()`: buffer = 0, buffer_length = 0. -/
def resetBuffer : Buf := ⟨0, 0⟩

/-- Source `and_mask(index, n) = 255 - ((1 << n) - 1 << index)`
(Python precedence: `((1 << n) - 1) << index`). -/
def and_mask (index n : Nat) : Nat := 255 - (((1 <<< n) - 1) <<< index)

/-- Source `max_bits_to_hide()` = `3 * width * height * num_lsb`,
parametrised by the image dimensions it reads. -/
def max_bits_to_hide (w h n : Nat) : Nat := 3 * w * h * n

/-- Python `int.bit_length`, by fuelled halving (the fuel argument is an
upper bound on the recursion depth; `m` itself always suffices). -/
def bitLenAux : Nat → Nat → Nat
  | 0, _ => 0
  | fuel + 1, m => if m = 0 then 0 else bitLenAux fuel (m / 2) + 1

/-- Python `int.bit_length`: the least `k` with `m < 2 ^ k`. -/
def bitLength (m : Nat) : Nat := bitLenAux m m

/-- Source `bits_in_max_filesize()` = `max_bits_to_hide().bit_length()`. -/
def bits_in_max_filesize (w h n : Nat) : Nat := bitLength (max_bits_to_hide w h n)

/-- Source `read_byte_to_buffer()`: pull one byte from the input stream
into the buffer (`buffer += byte << buffer_length; buffer_length += 8`);
on end of stream set `buffer = 0, buffer_length = -1`.  The shift amount
is `buffer_length.toNat` (the source only pushes with a non-negative
length). -/
def read_byte_to_buffer (stream : List Nat) (buf : Buf) : List Nat × Buf :=
  match stream with
  | [] => ([], ⟨0, -1⟩)
  | b :: rest => (rest, ⟨buf.value + (b <<< buf.length.toNat), buf.length + 8⟩)

/-- Source `read_bits_from_buffer(n)`: pop the low `n` bits
(`bits = buffer % (1 << n); buffer >>= n; buffer_length -= n`). -/
def read_bits_from_buffer (n : Nat) (buf : Buf) : Nat × Buf :=
  (buf.value % (1 <<< n), ⟨buf.value >>> n, buf.length - (n : Int)⟩)

/-- Row advance shared by `hide_data` and the byte-recovery phase of
`recover_data`: `x += 1; if x >= width: x = 0; y += 1`. -/
def advanceGE (w : Nat) (p : Nat × Nat) : Nat × Nat :=
  if p.1 + 1 ≥ w then (0, p.2 + 1) else (p.1 + 1, p.2)

/-- Row advance of the header-reading phase of `recover_data`:
`x += 1; if x > width: x = 0; y += 1` (note the strict `>`). -/
def advanceGT (w : Nat) (p : Nat × Nat) : Nat × Nat :=
  if p.1 + 1 > w then (0, p.2 + 1) else (p.1 + 1, p.2)

/-- One channel of the hide loop body (source lines 130–137): refill the
buffer when fewer than `num_lsb` bits remain, then, unless exhausted,
replace the channel's low `num_lsb` bits with popped bits. -/
def hideChannel (n : Nat) (c : Nat) (stream : List Nat) (buf : Buf) :
    Nat × List Nat × Buf :=
  let sb := if buf.length < (n : Int) then read_byte_to_buffer stream buf else (stream, buf)
  if sb.2.length ≠ -1 then
    let bb := read_bits_from_buffer n sb.2
    ((c &&& and_mask 0 n) ||| bb.1, sb.1, bb.2)
  else (c, sb.1, sb.2)

/-- The `for i in range(3)` body of `hide_data`: the three channels of
one pixel, processed in R, G, B order. -/
def hidePixel (n : Nat) (p : Nat × Nat × Nat) (stream : List Nat) (buf : Buf) :
    (Nat × Nat × Nat) × List Nat × Buf :=
  let r := hideChannel n p.1 stream buf
  let g := hideChannel n p.2.1 r.2.1 r.2.2
  let b := hideChannel n p.2.2 g.2.1 g.2.2
  ((r.1, g.1, b.1), b.2.1, b.2.2)

/-- The `while (buffer_length != -1 and y < image.size[1])` loop of
`hide_data`, with fuel (one unit per pixel; the caller passes enough for
the whole image). -/
def hideLoop (n : Nat) : Nat → Image → Nat × Nat → List Nat → Buf →
    Option (Image × Buf × List Nat)
  | 0, img, _, stream, buf => some (img, buf, stream)
  | fuel + 1, img, pos, stream, buf =>
    if buf.length ≠ -1 ∧ pos.2 < img.height then
      match img.getpixel pos.1 pos.2 with
      | none => none
      | some p =>
        let r := hidePixel n p stream buf
        hideLoop n fuel (img.putpixel pos.1 pos.2 r.1) (advanceGE img.width pos) r.2.1 r.2.2
    else some (img, buf, stream)

/-- Source `hide_data()`: seed the buffer with the payload's byte count
over `bits_in_max_filesize()` bits, then run the pixel loop.  Returns
the final image, buffer state, and unread remainder of the payload. -/
def hide_data (img : Image) (fileBytes : List Nat) (n : Nat) :
    Option (Image × Buf × List Nat) :=
  hideLoop n (img.width * img.height + 1) img (0, 0) fileBytes
    ⟨fileBytes.length, (bits_in_max_filesize img.width img.height n : Int)⟩

/-- One channel of the recovery loops (source lines 166–167 and 183–184):
`buffer += (rgb[i] % (1 << num_lsb)) << buffer_length; buffer_length += num_lsb`. -/
def recoverChannel (n c : Nat) (buf : Buf) : Buf :=
  ⟨buf.value + ((c % (1 <<< n)) <<< buf.length.toNat), buf.length + (n : Int)⟩

/-- The three channels of one pixel during recovery, in R, G, B order. -/
def recoverPixel (n : Nat) (p : Nat × Nat × Nat) (buf : Buf) : Buf :=
  recoverChannel n p.2.2 (recoverChannel n p.2.1 (recoverChannel n p.1 buf))

/-- The `for i in range(pixels_used_for_filesize)` header-reading loop of
`recover_data`; wraps rows with the strict test `x > width`. -/
def recoverHeaderLoop (img : Image) (n : Nat) :
    Nat → Nat × Nat → Buf → Option ((Nat × Nat) × Buf)
  | 0, pos, buf => some (pos, buf)
  | k + 1, pos, buf =>
    match img.getpixel pos.1 pos.2 with
    | none => none
    | some p => recoverHeaderLoop img n k (advanceGT img.width pos) (recoverPixel n p buf)

/-- The inner `while (buffer_length >= 8 and bytes_to_recover > 0)` loop
of `recover_data`: pop whole bytes while at least 8 bits are buffered.
Returns the bytes written, the buffer, and the remaining count. -/
def popBytesLoop : Buf → Nat → List Nat × Buf × Nat
  | buf, 0 => ([], buf, 0)
  | buf, b + 1 =>
    if (8 : Int) ≤ buf.length then
      let bb := read_bits_from_buffer 8 buf
      let r := popBytesLoop bb.2 b
      (bb.1 :: r.1, r.2.1, r.2.2)
    else ([], buf, b + 1)

/-- The outer `while (bytes_to_recover > 0)` loop of `recover_data`:
read a pixel, advance with the `x >= width` wrap, then pop buffered
bytes.  Fuel-limited; the caller passes enough fuel for any `num_lsb ≥ 1`. -/
def recoverLoop (img : Image) (n : Nat) :
    Nat → Nat × Nat → Buf → Nat → Option (List Nat)
  | 0, _, _, btr => if btr = 0 then some [] else none
  | fuel + 1, pos, buf, btr =>
    if btr = 0 then some []
    else
      match img.getpixel pos.1 pos.2 with
      | none => none
      | some p =>
        let buf2 := recoverPixel n p buf
        let pos2 := advanceGE img.width pos
        let r := popBytesLoop buf2 btr
        match recoverLoop img n fuel pos2 r.2.1 r.2.2 with
        | none => none
        | some rest => some (r.1 ++ rest)

/-- Source `recover_data()`: read `ceil(header_bits / (3 * num_lsb))`
pixels with the `x > width` wrap, pop the header as `bytes_to_recover`,
then recover that many bytes with the `x >= width` wrap.  Returns the
header value together with the recovered bytes. -/
def recover_data (img : Image) (n : Nat) : Option (Nat × List Nat) :=
  let hb := bits_in_max_filesize img.width img.height n
  let pu := (hb + 3 * n - 1) / (3 * n)
  match recoverHeaderLoop img n pu (0, 0) resetBuffer with
  | none => none
  | some pb =>
    let hv := read_bits_from_buffer hb pb.2
    match recoverLoop img n (8 * hv.1 + 8) pb.1 hv.2 hv.1 with
    | none => none
    | some out => some (hv.1, out)

/-- Row-major pixel positions of a `w × h` image, the order in which
both `hide_data` and `recover_data` walk the image. -/
def imagePositions (w : Nat) : Nat → List (Nat × Nat)
  | 0 => []
  | h + 1 => imagePositions w h ++ (List.range w).map (fun x => (x, h))

/-- A single buffer operation, as performed by the source while a hide
or recover operation is active: `push b` is the success branch of
`read_byte_to_buffer` (modelled as reading from the one-byte stream
`[b]`), `pop n` is `read_bits_from_buffer n`. -/
inductive BufOp where
  | push (b : Nat)
  | pop (n : Nat)
deriving DecidableEq, Repr

/-- Apply one buffer operation. -/
def applyOp : BufOp → Buf → Buf
  | .push b, s => (read_byte_to_buffer [b] s).2
  | .pop n, s => (read_bits_from_buffer n s).2

/-- Run a sequence of buffer operations. -/
def runOps : List BufOp → Buf → Buf
  | [], s => s
  | op :: ops, s => runOps ops (applyOp op s)

/-- A sequence of buffer operations is well-formed from a given buffer
length when every pushed value is a byte and every pop of `n` bits finds
at least `n` buffered bits (so the exhausted sentinel is never entered). -/
def goodFrom : List BufOp → Int → Bool
  | [], _ => true
  | .push b :: ops, l => decide (b < 256) && goodFrom ops (l + 8)
  | .pop n :: ops, l => decide ((n : Int) ≤ l) && goodFrom ops (l - (n : Int))

/-- Concrete 2 × 2 cover image used by the spec's concrete scenarios. -/
def img2x2 : Image := ⟨2, 2, [(10, 20, 30), (40, 50, 60), (70, 80, 90), (100, 110, 120)]⟩

/-- The image produced by hiding the single byte `171` in `img2x2` with
`num_lsb = 1`. -/
def img2x2Hidden : Image := ⟨2, 2, [(11, 20, 30), (40, 51, 61), (70, 81, 90), (101, 110, 121)]⟩

/-- A 2 × 2 image with all channels zero (its embedded header reads 0). -/
def img2x2zero : Image := ⟨2, 2, [(0, 0, 0), (0, 0, 0), (0, 0, 0), (0, 0, 0)]⟩

/-- A 1 × 4 image: its header needs 2 pixels, so the header-reading
phase of `recover_data` addresses column `x = width`. -/
def img1x4 : Image := ⟨1, 4, [(1, 1, 1), (0, 0, 0), (0, 0, 0), (0, 0, 0)]⟩

/-! ### Helper lemmas -/

lemma pop_lt (n : Nat) (buf : Buf) : (read_bits_from_buffer n buf).1 < 2 ^ n := by
  simp only [read_bits_from_buffer, Nat.one_shiftLeft]
  exact Nat.mod_lt _ (Nat.two_pow_pos n)

lemma and_mask_zero_eq {n : Nat} (h : n ≤ 8) : and_mask 0 n = (2 ^ (8 - n) - 1) <<< n := by
  have hab : 2 ^ (8 - n) * 2 ^ n = 256 := by
    rw [← pow_add]
    have h8 : 8 - n + n = 8 := by omega
    rw [h8]
    norm_num
  have h1 : (1 : Nat) ≤ 2 ^ n := Nat.one_le_two_pow
  have h2 : 2 ^ n ≤ 256 := by
    calc 2 ^ n = 1 * 2 ^ n := (one_mul _).symm
    _ ≤ 2 ^ (8 - n) * 2 ^ n := Nat.mul_le_mul_right _ Nat.one_le_two_pow
    _ = 256 := hab
  have key : (2 ^ (8 - n) - 1) <<< n = 256 - 2 ^ n := by
    rw [Nat.shiftLeft_eq, Nat.sub_mul, one_mul, hab]
  simp only [and_mask, Nat.shiftLeft_zero, Nat.one_shiftLeft, key]
  omega

lemma masked_or_shift {c p n : Nat} (hc : c < 256) (hn : n ≤ 8) (hp : p < 2 ^ n) :
    ((c &&& and_mask 0 n) ||| p) >>> n = c >>> n ∧ ((c &&& and_mask 0 n) ||| p) < 256 := by
  constructor
  · apply Nat.eq_of_testBit_eq
    intro i
    rw [Nat.testBit_shiftRight, Nat.testBit_shiftRight, Nat.testBit_or, Nat.testBit_and,
      and_mask_zero_eq hn, Nat.testBit_shiftLeft, Nat.testBit_two_pow_sub_one]
    have hpb : p.testBit (n + i) = false :=
      Nat.testBit_lt_two_pow
        (lt_of_lt_of_le hp (Nat.pow_le_pow_right (by norm_num) (Nat.le_add_right n i)))
    by_cases hi : i < 8 - n
    · have hge : n ≤ n + i := Nat.le_add_right n i
      have hsub : n + i - n = i := by omega
      simp [hpb, hsub, hi, hge]
    · have h8 : (256 : Nat) ≤ 2 ^ (n + i) := by
        have hni : 8 ≤ n + i := by omega
        calc (256 : Nat) = 2 ^ 8 := by norm_num
        _ ≤ 2 ^ (n + i) := Nat.pow_le_pow_right (by norm_num) hni
      have hcb : c.testBit (n + i) = false :=
        Nat.testBit_lt_two_pow (lt_of_lt_of_le hc h8)
      have hsub : n + i - n = i := by omega
      simp [hpb, hcb, hsub, hi]
  · have hm : and_mask 0 n < 2 ^ 8 := by
      have hle : and_mask 0 n ≤ 255 := by
        simp only [and_mask]
        exact Nat.sub_le _ _
      calc and_mask 0 n ≤ 255 := hle
      _ < 2 ^ 8 := by norm_num
    have hp8 : p < 2 ^ 8 := lt_of_lt_of_le hp (Nat.pow_le_pow_right (by norm_num) hn)
    have := Nat.or_lt_two_pow (Nat.and_lt_two_pow c hm) hp8
    calc (c &&& and_mask 0 n) ||| p < 2 ^ 8 := this
    _ = 256 := by norm_num

lemma bitLenAux_spec : ∀ fuel m, m ≤ fuel →
    m < 2 ^ bitLenAux fuel m ∧ ∀ k, m < 2 ^ k → bitLenAux fuel m ≤ k := by
  intro fuel
  induction fuel with
  | zero =>
    intro m hm
    have : m = 0 := by omega
    subst this
    exact ⟨by norm_num, fun k _ => Nat.zero_le k⟩
  | succ fuel ih =>
    intro m hm
    by_cases h0 : m = 0
    · subst h0
      simp only [bitLenAux, if_pos rfl]
      exact ⟨by norm_num, fun k _ => Nat.zero_le k⟩
    · have hrec : bitLenAux (fuel + 1) m = bitLenAux fuel (m / 2) + 1 := by
        simp [bitLenAux, h0]
      have hhalf : m / 2 ≤ fuel := by omega
      obtain ⟨hlt, hmin⟩ := ih (m / 2) hhalf
      constructor
      · rw [hrec, pow_succ]
        omega
      · intro k hk
        obtain ⟨j, rfl⟩ : ∃ j, k = j + 1 := by
          rcases k with _ | j
          · exfalso
            simp at hk
            omega
          · exact ⟨j, rfl⟩
        have h2j : 2 ^ (j + 1) = 2 * 2 ^ j := by
          rw [pow_succ]
          ring
        have hj : m / 2 < 2 ^ j := by omega
        have := hmin j hj
        rw [hrec]
        omega

lemma bitLength_spec (m : Nat) :
    m < 2 ^ bitLength m ∧ ∀ k, m < 2 ^ k → bitLength m ≤ k :=
  bitLenAux_spec m m (le_refl m)

lemma length_imagePositions (w : Nat) : ∀ h, (imagePositions w h).length = w * h := by
  intro h
  induction h with
  | zero => simp [imagePositions]
  | succ h ih =>
    simp only [imagePositions, List.length_append, List.length_map, List.length_range, ih]
    ring

lemma runOps_invariant : ∀ ops (s : Buf), goodFrom ops s.length = true → 0 ≤ s.length →
    s.value < 2 ^ s.length.toNat →
    0 ≤ (runOps ops s).length ∧ (runOps ops s).value < 2 ^ (runOps ops s).length.toNat := by
  intro ops
  induction ops with
  | nil =>
    intro s _ h0 hv
    exact ⟨h0, hv⟩
  | cons op ops ih =>
    intro s hgood h0 hv
    cases op with
    | push b =>
      simp only [goodFrom, Bool.and_eq_true, decide_eq_true_eq] at hgood
      obtain ⟨hb, hrest⟩ := hgood
      apply ih
      · simpa [applyOp, read_byte_to_buffer] using hrest
      · simp only [runOps, applyOp, read_byte_to_buffer]
        omega
      · simp only [runOps, applyOp, read_byte_to_buffer]
        rw [Nat.shiftLeft_eq]
        have htn : (s.length + 8).toNat = s.length.toNat + 8 := by omega
        rw [htn]
        calc s.value + b * 2 ^ s.length.toNat
            < 2 ^ s.length.toNat + b * 2 ^ s.length.toNat := Nat.add_lt_add_right hv _
        _ = (b + 1) * 2 ^ s.length.toNat := by ring
        _ ≤ 256 * 2 ^ s.length.toNat := Nat.mul_le_mul_right _ (by omega)
        _ = 2 ^ (s.length.toNat + 8) := by
            rw [pow_add]
            ring
    | pop n =>
      simp only [goodFrom, Bool.and_eq_true, decide_eq_true_eq] at hgood
      obtain ⟨hn, hrest⟩ := hgood
      apply ih
      · simpa [applyOp, read_bits_from_buffer] using hrest
      · simp only [runOps, applyOp, read_bits_from_buffer]
        omega
      · simp only [runOps, applyOp, read_bits_from_buffer]
        rw [Nat.shiftRight_eq_div_pow]
        have htn : (s.length - (n : Int)).toNat = s.length.toNat - n := by omega
        rw [htn, Nat.div_lt_iff_lt_mul (Nat.two_pow_pos n)]
        calc s.value < 2 ^ s.length.toNat := hv
        _ = 2 ^ (s.length.toNat - n) * 2 ^ n := by
            rw [← pow_add]
            congr 1
            omega

lemma popBytesLoop_count : ∀ btr buf,
    (popBytesLoop buf btr).1.length + (popBytesLoop buf btr).2.2 = btr := by
  intro btr
  induction btr with
  | zero =>
    intro buf
    simp [popBytesLoop]
  | succ b ih =>
    intro buf
    by_cases h : (8 : Int) ≤ buf.length
    · simp only [popBytesLoop, if_pos h, List.length_cons]
      have := ih (read_bits_from_buffer 8 buf).2
      omega
    · simp [popBytesLoop, if_neg h]

lemma recoverLoop_some_length (img : Image) (n : Nat) : ∀ fuel pos buf btr out,
    recoverLoop img n fuel pos buf btr = some out → out.length = btr := by
  intro fuel
  induction fuel with
  | zero =>
    intro pos buf btr out h
    simp only [recoverLoop] at h
    split at h
    · next hb =>
      cases h
      simp [hb]
    · exact absurd h (by simp)
  | succ fuel ih =>
    intro pos buf btr out h
    simp only [recoverLoop] at h
    by_cases hb : btr = 0
    · rw [if_pos hb] at h
      cases h
      simp [hb]
    · rw [if_neg hb] at h
      cases hpix : img.getpixel pos.1 pos.2 with
      | none =>
        rw [hpix] at h
        exact absurd h (by simp)
      | some p =>
        rw [hpix] at h
        dsimp only at h
        cases hrec : recoverLoop img n fuel (advanceGE img.width pos)
            (popBytesLoop (recoverPixel n p buf) btr).2.1
            (popBytesLoop (recoverPixel n p buf) btr).2.2 with
        | none =>
          rw [hrec] at h
          exact absurd h (by simp)
        | some rest =>
          rw [hrec] at h
          cases h
          have hpc := popBytesLoop_count btr (recoverPixel n p buf)
          have hr := ih _ _ _ _ hrec
          simp only [List.length_append, hr]
          omega

lemma hideChannel_fst (n c : Nat) (stream : List Nat) (buf : Buf) :
    (hideChannel n c stream buf).1 = c
      ∨ ∃ v, v < 2 ^ n ∧ (hideChannel n c stream buf).1 = (c &&& and_mask 0 n) ||| v := by
  simp only [hideChannel]
  by_cases h1 : buf.length < (n : Int)
  · rw [if_pos h1]
    by_cases h2 : (read_byte_to_buffer stream buf).2.length ≠ -1
    · rw [if_pos h2]
      exact Or.inr ⟨_, pop_lt n _, rfl⟩
    · rw [if_neg h2]
      exact Or.inl rfl
  · rw [if_neg h1]
    by_cases h2 : (stream, buf).2.length ≠ -1
    · rw [if_pos h2]
      exact Or.inr ⟨_, pop_lt n _, rfl⟩
    · rw [if_neg h2]
      exact Or.inl rfl

/-! ### Claim theorems -/

/-- C1: the round-trip claim fails on the code.  The 2 × 2 image with
`num_lsb = 1` and a 1-byte payload satisfies the capacity condition
`header_bits + 8·L = 4 + 8 ≤ 12 = capacity`, and hiding succeeds, but
recovering from the hidden image does not return the payload: the
header-reading phase ends at `x = width` (its row wrap tests `x > width`),
so the byte-recovery phase reads pixel `(2, 0)`, which is out of range
(`none`, a PIL `IndexError` in the source), instead of producing `[171]`. -/
theorem C1_roundtrip_fails_on_code :
    bits_in_max_filesize 2 2 1 = 4
      ∧ bits_in_max_filesize 2 2 1 + 8 * 1 ≤ max_bits_to_hide 2 2 1
      ∧ (hide_data img2x2 [171] 1).isSome = true
      ∧ (hide_data img2x2 [171] 1).bind (fun t => recover_data t.1 1) = none := by
  decide

/-- C2: in the spec's concrete 2 × 2 scenario with `num_lsb = 1`, hiding
the byte `171` does consume exactly the 12 available channel bits (the
final buffer is `(0, 0)` and the payload stream is fully read), but
recovering from the resulting image does not return the byte: it fails
with an out-of-range pixel access (`none`) caused by the header phase's
`x > width` row wrap leaving `x = width = 2`. -/
theorem C2_concrete_scenario :
    hide_data img2x2 [171] 1 = some (img2x2Hidden, ⟨0, 0⟩, [])
      ∧ recover_data img2x2Hidden 1 = none := by
  decide

/-- C3 counterexample: the claim assigns the row-wrap rules to the wrong
phases.  At `width = 2`, `x = 1`, the header phase's advance (`advanceGT`,
source line 170, test `x > width`) does not wrap where the claim's
`x < width` rule would, and the byte-recovery advance (`advanceGE`,
source line 187, test `x >= width`) wraps where the claim's `x > width`
rule would not; the stated combination is refuted. -/
theorem C3_counterexample :
    ¬ (advanceGT 2 (1, 0) = (0, 1) ∧ advanceGE 2 (1, 0) = (2, 0)) := by
  decide

/-- C3 amended: the decoder's header-reading phase wraps rows with
`x > width` and therefore can address column `x = width` (from `x = w - 1`
it advances to `x = w`, and on `img1x4` this makes `recover_data` hit an
out-of-range pixel), while the byte-recovery phase wraps with
`x >= width` and from any in-range column advances to an in-range
column. -/
theorem C3_amended_wrap_rules (w x y z : Nat) (hw : 0 < w) (hx : x < w) :
    advanceGT w (w - 1, y) = (w, y)
      ∧ (advanceGE w (x, z)).1 < w
      ∧ recover_data img1x4 1 = none := by
  refine ⟨?_, ?_, by decide⟩
  · simp only [advanceGT]
    have hwx : w - 1 + 1 = w := by omega
    rw [hwx, if_neg (by omega)]
  · simp only [advanceGE]
    by_cases hxe : x + 1 ≥ w
    · rw [if_pos hxe]
      exact hw
    · rw [if_neg hxe]
      omega

/-- C3 amended, witness at `w = 2`, `x = 1`. -/
theorem C3_amended_wrap_rules_witness :
    (0 < 2 ∧ 1 < 2)
      ∧ advanceGT 2 (2 - 1, 0) = (2, 0)
        ∧ (advanceGE 2 (1, 0)).1 < 2
        ∧ recover_data img1x4 1 = none :=
  ⟨by decide, C3_amended_wrap_rules 2 1 0 0 (by decide) (by decide)⟩

/-- C4: the code has no capacity check.  Hiding the 2-byte payload
`[171, 205]` (4-bit header + 16 payload bits = 20 bits > 12-bit capacity)
in the 2 × 2 image with `num_lsb = 1` returns normally with all four
pixels rewritten; the second byte is never read from the stream (it
remains as the leftover `[205]`), i.e. the payload is silently truncated
and no error of any kind is raised. -/
theorem C4_silent_truncation :
    hide_data img2x2 [171, 205] 1
      = some (⟨2, 2, [(10, 21, 30), (40, 51, 61), (70, 81, 90), (101, 110, 121)]⟩,
          ⟨0, 0⟩, [205]) := by
  decide

/-- C5: the header width `bits_in_max_filesize` is the least `k` with
`2 ^ k > 3·w·h·n` (stated via an arbitrary competitor `k`), and in
particular for a 100 × 100 image with `num_lsb = 2` the capacity is
60000 bits and the header width is 16 bits. -/
theorem C5_header_width (w h n k : Nat) (hw : 0 < w) (hh : 0 < h)
    (hn1 : 1 ≤ n) (hn8 : n ≤ 8) (hk : max_bits_to_hide w h n < 2 ^ k) :
    max_bits_to_hide w h n < 2 ^ bits_in_max_filesize w h n
      ∧ bits_in_max_filesize w h n ≤ k
      ∧ bits_in_max_filesize 100 100 2 = 16
      ∧ max_bits_to_hide 100 100 2 = 60000 := by
  obtain ⟨h1, h2⟩ := bitLength_spec (max_bits_to_hide w h n)
  exact ⟨h1, h2 k hk, by decide, by decide⟩

/-- C5 witness at `w = h = 100`, `n = 2`, `k = 16`. -/
theorem C5_header_width_witness :
    (0 < 100 ∧ 1 ≤ 2 ∧ 2 ≤ 8 ∧ max_bits_to_hide 100 100 2 < 2 ^ 16)
      ∧ max_bits_to_hide 100 100 2 < 2 ^ bits_in_max_filesize 100 100 2
        ∧ bits_in_max_filesize 100 100 2 ≤ 16
        ∧ bits_in_max_filesize 100 100 2 = 16
        ∧ max_bits_to_hide 100 100 2 = 60000 :=
  ⟨by decide, C5_header_width 100 100 2 16 (by decide) (by decide) (by decide)
    (by decide) (by decide)⟩

/-- C6: the payload capacity equals `3·w·h·n` bits, and also equals
`num_lsb` bits for each of the 3 channels of every pixel the row-major
walk visits. -/
theorem C6_capacity_formula (w h n : Nat) (hw : 0 < w) (hh : 0 < h)
    (hn1 : 1 ≤ n) (hn8 : n ≤ 8) :
    max_bits_to_hide w h n = 3 * w * h * n
      ∧ max_bits_to_hide w h n = 3 * (imagePositions w h).length * n := by
  refine ⟨rfl, ?_⟩
  rw [length_imagePositions]
  simp only [max_bits_to_hide]
  ring

/-- C6 witness at `w = h = 2`, `n = 1`. -/
theorem C6_capacity_formula_witness :
    (0 < 2 ∧ 1 ≤ 1 ∧ 1 ≤ 8)
      ∧ max_bits_to_hide 2 2 1 = 3 * 2 * 2 * 1
        ∧ max_bits_to_hide 2 2 1 = 3 * (imagePositions 2 2).length * 1 :=
  ⟨by decide, C6_capacity_formula 2 2 1 (by decide) (by decide) (by decide) (by decide)⟩

/-- C7: starting from the reset state `(0, 0)`, any sequence of
push-byte and pop operations in which every pushed value is a byte and
every pop of `n` bits finds at least `n` buffered bits (so the buffer
never enters the exhausted sentinel) keeps the buffer length
non-negative and the value strictly below `2 ^ length`. -/
theorem C7_buffer_invariant (ops : List BufOp) (h : goodFrom ops 0 = true) :
    0 ≤ (runOps ops resetBuffer).length
      ∧ (runOps ops resetBuffer).value < 2 ^ (runOps ops resetBuffer).length.toNat :=
  runOps_invariant ops resetBuffer h (by decide) (by decide)

/-- C7 witness: push the byte 171, then pop 3 bits. -/
theorem C7_buffer_invariant_witness :
    goodFrom [BufOp.push 171, BufOp.pop 3] 0 = true
      ∧ 0 ≤ (runOps [BufOp.push 171, BufOp.pop 3] resetBuffer).length
      ∧ (runOps [BufOp.push 171, BufOp.pop 3] resetBuffer).value
          < 2 ^ (runOps [BufOp.push 171, BufOp.pop 3] resetBuffer).length.toNat :=
  ⟨by decide, C7_buffer_invariant [BufOp.push 171, BufOp.pop 3] (by decide)⟩

/-- C8: with the byte source exhausted, every fill attempt
(`read_byte_to_buffer` on the empty stream) puts the buffer in the
`(0, -1)` state from any state; the per-channel encoder step in that
state leaves the channel value unmodified; and the hide loop started in
that state returns the image unchanged without touching any pixel. -/
theorem C8_exhaustion_propagation (buf : Buf) (n c fuel : Nat) (img : Image)
    (pos : Nat × Nat) :
    read_byte_to_buffer [] buf = ([], ⟨0, -1⟩)
      ∧ hideChannel n c [] ⟨0, -1⟩ = (c, [], ⟨0, -1⟩)
      ∧ hideLoop n fuel img pos [] ⟨0, -1⟩ = some (img, ⟨0, -1⟩, []) := by
  refine ⟨rfl, ?_, ?_⟩
  · have hlt : (Buf.mk 0 (-1)).length < (n : Int) := by
      show (-1 : Int) < (n : Int)
      omega
    simp only [hideChannel, if_pos hlt, read_byte_to_buffer]
    rw [if_neg (by simp)]
  · cases fuel with
    | zero => rfl
    | succ fuel =>
      simp only [hideLoop]
      rw [if_neg]
      rintro ⟨h1, -⟩
      exact h1 rfl

/-- C9 counterexample: `img2x2Hidden` is produced by a matching encoder
with the same `num_lsb = 1` and carries header value 1, yet the decoder
aborts with an out-of-range pixel access (`none`) after writing 0 bytes,
so it does not produce exactly `bytes_to_recover = 1` bytes. -/
theorem C9_counterexample :
    (hide_data img2x2 [171] 1).map (fun t => t.1) = some img2x2Hidden
      ∧ recover_data img2x2Hidden 1 = none := by
  decide

/-- C9 (amended): whenever `recover_data` completes without an
out-of-range pixel access, the list of bytes it writes has length
exactly the header value `bytes_to_recover` it popped. -/
theorem C9_output_length (img : Image) (n k : Nat) (out : List Nat)
    (h : recover_data img n = some (k, out)) : out.length = k := by
  simp only [recover_data] at h
  cases hh : recoverHeaderLoop img n
      ((bits_in_max_filesize img.width img.height n + 3 * n - 1) / (3 * n)) (0, 0)
      resetBuffer with
  | none =>
    rw [hh] at h
    exact absurd h (by simp)
  | some pb =>
    rw [hh] at h
    dsimp only at h
    cases hr : recoverLoop img n
        (8 * (read_bits_from_buffer (bits_in_max_filesize img.width img.height n) pb.2).1 + 8)
        pb.1
        (read_bits_from_buffer (bits_in_max_filesize img.width img.height n) pb.2).2
        (read_bits_from_buffer (bits_in_max_filesize img.width img.height n) pb.2).1 with
    | none =>
      rw [hr] at h
      exact absurd h (by simp)
    | some o =>
      rw [hr] at h
      simp only [Option.some.injEq, Prod.mk.injEq] at h
      obtain ⟨hk, hout⟩ := h
      subst hk
      subst hout
      exact recoverLoop_some_length img n _ _ _ _ _ hr

/-- C9 witness: recovering from the all-zero 2 × 2 image pops the header
value 0 and writes exactly 0 bytes. -/
theorem C9_output_length_witness :
    recover_data img2x2zero 1 = some (0, []) ∧ ([] : List Nat).length = 0 :=
  have h : recover_data img2x2zero 1 = some (0, []) := by decide
  ⟨h, C9_output_length img2x2zero 1 0 [] h⟩

/-- C10: for `num_lsb` in [1, 8] and a channel byte `c < 256`, the
popped value is strictly below `2 ^ num_lsb`, and the channel value the
encoder produces (either `(c &&& and_mask 0 n) ||| popped` or, on
exhaustion, `c` itself) keeps the high `8 - num_lsb` bits unchanged and
stays a valid byte. -/
theorem C10_channel_update (n c : Nat) (stream : List Nat) (buf : Buf)
    (hc : c < 256) (hn1 : 1 ≤ n) (hn8 : n ≤ 8) :
    (read_bits_from_buffer n buf).1 < 2 ^ n
      ∧ (hideChannel n c stream buf).1 >>> n = c >>> n
      ∧ (hideChannel n c stream buf).1 < 256 := by
  refine ⟨pop_lt n buf, ?_⟩
  rcases hideChannel_fst n c stream buf with h | ⟨v, hv, h⟩
  · rw [h]
    exact ⟨rfl, hc⟩
  · rw [h]
    exact masked_or_shift hc hn8 hv

/-- C10 witness at `n = 2`, `c = 200`, a one-byte stream and a buffer
holding 9 over 4 bits. -/
theorem C10_channel_update_witness :
    (200 < 256 ∧ 1 ≤ 2 ∧ 2 ≤ 8)
      ∧ (read_bits_from_buffer 2 ⟨9, 4⟩).1 < 2 ^ 2
        ∧ (hideChannel 2 200 [5] ⟨9, 4⟩).1 >>> 2 = 200 >>> 2
        ∧ (hideChannel 2 200 [5] ⟨9, 4⟩).1 < 256 :=
  ⟨by decide, C10_channel_update 2 200 [5] ⟨9, 4⟩ (by decide) (by decide) (by decide)⟩

end LSBSteg
